import Mathlib

/-!
Verification of the juju-docker charm's core logic against its specification.

Source files embedded here:
  * `hooks/peers.py` — peer discovery and `--join` argument composition
  * `hooks/common.py` — `ClusterPeers.map`
  * `hooks/charmhelpers/core/services/helpers.py` — `RelationContext`
  * `hooks/charmhelpers/core/hookenv.py` — `Config`, `Hooks`
  * `hooks/charmhelpers/core/host.py` — `file_hash`, `restart_on_change`
  * `hooks/charmhelpers/contrib/docker/__init__.py` — `DockerCallback`,
    `DockerPortMappings`, `DockerVolumes`, `DockerContainerArgs`,
    `DockerRelation`

Python dictionaries are embedded as association lists carrying the dict's
iteration order; key/value relation data and config data are string-valued.
-/

namespace JujuDocker

/-- Lookup in an association list, mirroring Python `dict.get(key)`
(returns `none` when the key is absent). -/
def alookup (m : List (String × String)) (k : String) : Option String :=
  (m.find? (fun kv => kv.1 = k)).map (fun kv => kv.2)

/-- Membership test mirroring Python `key in dict`. -/
def amem (m : List (String × String)) (k : String) : Bool :=
  (alookup m k).isSome

/-! ### `hooks/peers.py` : `cli_peers` -/

/-- `peers.cli_peers(peers, port)`: builds `['--join', '<peer>:<port>', ...]`
by extending a result list once per peer, then joins with single spaces. -/
def cli_peers (peers : List String) (port : Nat) : String :=
  String.intercalate " "
    (peers.foldl (fun result peer =>
      result ++ ["--join", peer ++ ":" ++ toString port]) [])

/-- Spec-side formulation of the same output: exactly one
`--join host:port` pair per peer, in the peers' collection order,
space-joined. -/
def specPeerJoin (peers : List String) (port : Nat) : String :=
  String.intercalate " "
    (peers.map (fun peer => "--join " ++ peer ++ ":" ++ toString port))

lemma foldl_extend_eq_flatMap (peers : List String) (port : Nat)
    (acc : List String) :
    peers.foldl (fun result peer =>
        result ++ ["--join", peer ++ ":" ++ toString port]) acc =
      acc ++ peers.flatMap
        (fun peer => ["--join", peer ++ ":" ++ toString port]) := by
  induction peers generalizing acc with
  | nil => simp
  | cons p ps ih =>
      simp [List.foldl_cons, ih]

lemma intercalate_go_pairs (f g : String → String) (xs : List String)
    (acc : String) :
    String.intercalate.go acc " " (xs.flatMap (fun x => [f x, g x])) =
      String.intercalate.go acc " " (xs.map (fun x => f x ++ " " ++ g x)) := by
  induction xs generalizing acc with
  | nil => rfl
  | cons x xs ih =>
      have h1 : (x :: xs).flatMap (fun y => [f y, g y]) =
          f x :: g x :: xs.flatMap (fun y => [f y, g y]) := by simp
      have h2 : (x :: xs).map (fun y => f y ++ " " ++ g y) =
          (f x ++ " " ++ g x) :: xs.map (fun y => f y ++ " " ++ g y) := by simp
      rw [h1, h2]
      show String.intercalate.go (acc ++ " " ++ f x ++ " " ++ g x) " "
          (xs.flatMap (fun y => [f y, g y])) =
        String.intercalate.go (acc ++ " " ++ (f x ++ " " ++ g x)) " "
          (xs.map (fun y => f y ++ " " ++ g y))
      rw [ih]
      congr 1
      simp [String.append_assoc]

lemma intercalate_space_pairs (xs : List String) (f g : String → String) :
    String.intercalate " " (xs.flatMap (fun x => [f x, g x])) =
      String.intercalate " " (xs.map (fun x => f x ++ " " ++ g x)) := by
  cases xs with
  | nil => rfl
  | cons x xs =>
      simp only [List.flatMap_cons, List.map_cons, List.cons_append,
        List.nil_append, String.intercalate, String.intercalate.go]
      exact intercalate_go_pairs f g xs _

/-! ### `hookenv.Config` : persistent config store -/

/-- `Config.previous(key)`: `self._prev_dict.get(key)` when `_prev_dict` is
truthy (loaded and non-empty), else `None`.  `prev = none` models
`_prev_dict is None` (no snapshot ever loaded); `some p` models a loaded
snapshot `p` (possibly the empty dict, which is falsy in Python). -/
def Config.previousVal (prev : Option (List (String × String)))
    (key : String) : Option String :=
  match prev with
  | none => none
  | some p => if p.isEmpty then none else alookup p key

/-- `Config.changed(key)`: `True` when `_prev_dict is None`, otherwise
`self.previous(key) != self.get(key)`. -/
def Config.changed (current : List (String × String))
    (prev : Option (List (String × String))) (key : String) : Bool :=
  match prev with
  | none => true
  | some _ => Config.previousVal prev key != alookup current key

/-- `Config.save()`: when `_prev_dict` is truthy, every key of `_prev_dict`
not present in `self` is copied into `self`; the resulting mapping is what
`json.dump` serializes.  Returns the serialized mapping. -/
def Config.save (current : List (String × String))
    (prev : Option (List (String × String))) : List (String × String) :=
  match prev with
  | none => current
  | some p =>
      if p.isEmpty then current
      else current ++ p.filter (fun kv => !(amem current kv.1))

/-- `Config.load_previous()`: parses the snapshot file back into
`_prev_dict`; a save-then-load round trip makes the saved mapping the new
prior snapshot. -/
def Config.load_previous (saved : List (String × String)) :
    Option (List (String × String)) :=
  some saved

lemma alookup_append (a b : List (String × String)) (k : String) :
    alookup (a ++ b) k = ((alookup a k).or (alookup b k)) := by
  induction a with
  | nil => simp [alookup]
  | cons kv a ih =>
      by_cases h : kv.1 = k
      · simp [alookup, List.find?, h]
      · simpa [alookup, List.find?, h] using ih

lemma alookup_cons (kv : String × String) (p : List (String × String))
    (k : String) :
    alookup (kv :: p) k = if kv.1 = k then some kv.2 else alookup p k := by
  by_cases h : kv.1 = k <;> simp [alookup, List.find?, h]

lemma alookup_filter_not_mem (current : List (String × String)) (k : String)
    (hk : alookup current k = none) (p : List (String × String)) :
    alookup (p.filter (fun kv => !(amem current kv.1))) k = alookup p k := by
  induction p with
  | nil => rfl
  | cons kv p ih =>
      rw [List.filter_cons]
      cases hmem : amem current kv.1 with
      | true =>
          have hne : kv.1 ≠ k := by
            intro he
            rw [he] at hmem
            simp [amem, hk] at hmem
          simp only [hmem, Bool.not_true, if_false, Bool.false_eq_true,
            reduceIte]
          rw [ih, alookup_cons, if_neg hne]
      | false =>
          simp only [hmem, Bool.not_false, if_true]
          rw [alookup_cons, alookup_cons, ih]

/-! ### `services/helpers.py` : `RelationContext` -/

/-- Code-point comparison of character lists, as Python compares strings. -/
def charListLe : List Char → List Char → Bool
  | [], _ => true
  | _ :: _, [] => false
  | a :: as, b :: bs =>
      if a < b then true else if b < a then false else charListLe as bs

/-- Lexicographic string order used by Python's `sorted`. -/
def pyStrLe (a b : String) : Bool :=
  charListLe a.data b.data

/-- Stable insertion into a sorted list. -/
def sortedInsert (x : String) : List String → List String
  | [] => [x]
  | y :: ys => if pyStrLe x y then x :: y :: ys else y :: sortedInsert x ys

/-- Python's `sorted` on a list of strings. -/
def pySorted : List String → List String
  | [] => []
  | x :: xs => sortedInsert x (pySorted xs)

/-- The environment a `RelationContext` queries: `hookenv.relation_ids`,
`hookenv.related_units` and `hookenv.relation_get`. -/
structure RelationEnv where
  relationIds : String → List String
  relatedUnits : String → List String
  relationGet : String → String → List (String × String)

namespace RelationContext

/-- `RelationContext._is_ready(unit_data)`:
`set(unit_data.keys()).issuperset(set(self.required_keys))`. -/
def unitReady (required_keys : List String)
    (unit_data : List (String × String)) : Bool :=
  required_keys.all (fun k => amem unit_data k)

/-- `RelationContext.get_data()`: when `relation_ids(self.name)` is empty the
dict stays empty (so `self.get(self.name, [])` is `[]`); otherwise, for each
relation id in sorted order and each related unit in sorted order, the unit's
relation data is appended to `self[self.name]` if `_is_ready(reldata)`. -/
def get_data (name : String) (required_keys : List String)
    (env : RelationEnv) : List (List (String × String)) :=
  if (env.relationIds name).isEmpty then []
  else
    (pySorted (env.relationIds name)).flatMap (fun rid =>
      (pySorted (env.relatedUnits rid)).filterMap (fun unit =>
        let reldata := env.relationGet rid unit
        if unitReady required_keys reldata then some reldata else none))

/-- `RelationContext.is_ready()`: `len(self.get(self.name, [])) > 0` over the
data collected at construction time. -/
def is_ready (name : String) (required_keys : List String)
    (env : RelationEnv) : Bool :=
  decide (0 < (get_data name required_keys env).length)

end RelationContext

/-- A concrete relation environment: one relation id, two related units, of
which only `unit/0` publishes the `private-address` key. -/
def twoUnitEnv : RelationEnv where
  relationIds := fun _ => ["intracluster:1"]
  relatedUnits := fun _ => ["unit/0", "unit/1"]
  relationGet := fun _ unit =>
    if unit = "unit/0" then [("private-address", "10.0.0.1")] else []

/-! ### `hookenv.Hooks` : decorator-based hook registration -/

/-- Python's `name.replace('_', '-')` for the one-character pattern. -/
def hyphenate (s : String) : String :=
  ⟨s.data.map (fun c => if c = '_' then '-' else c)⟩

/-- Python's `'_' in name`. -/
def hasUnderscore (s : String) : Bool :=
  s.data.contains '_'

namespace Hooks

/-- The `_hooks` registry, mapping hook names to handler functions (handlers
are represented by identifiers). -/
def Registry := String → Option Nat

/-- `Hooks.register(name, function)`: `self._hooks[name] = function`. -/
def register (hooks : Registry) (name : String) (function : Nat) : Registry :=
  fun n => if n = name then some function else hooks n

/-- `Hooks.hook(*hook_names)` applied to a function named `decorated_name`:
registers the function under each explicit name; the `for`/`else` clause
(which always runs, as the loop has no `break`) then registers it under the
function's own name, and additionally under the hyphenated form of that name
when it contains an underscore. -/
def hook (hooks : Registry) (hook_names : List String)
    (decorated_name : String) (decorated : Nat) : Registry :=
  let r1 := hook_names.foldl (fun acc hook_name =>
    register acc hook_name decorated) hooks
  let r2 := register r1 decorated_name decorated
  if hasUnderscore decorated_name then
    register r2 (hyphenate decorated_name) decorated
  else r2

lemma register_self (hooks : Registry) (name : String) (f : Nat) :
    register hooks name f name = some f := by
  simp [register]

lemma register_keep (hooks : Registry) (name n : String) (f : Nat)
    (hn : hooks n = some f) : register hooks name f n = some f := by
  unfold register
  split <;> simp [hn]

lemma foldl_register_keep (names : List String) (hooks : Registry)
    (n : String) (f : Nat) (hn : hooks n = some f) :
    names.foldl (fun acc m => register acc m f) hooks n = some f := by
  induction names generalizing hooks with
  | nil => exact hn
  | cons m ms ih => exact ih _ (register_keep _ _ _ _ hn)

lemma foldl_register_mem (names : List String) (hooks : Registry)
    (n : String) (f : Nat) (hn : n ∈ names) :
    names.foldl (fun acc m => register acc m f) hooks n = some f := by
  induction names generalizing hooks with
  | nil => cases hn
  | cons m ms ih =>
      rcases List.mem_cons.mp hn with h | h
      · subst h
        exact foldl_register_keep ms _ n f (register_self hooks n f)
      · exact ih _ h

end Hooks

/-! ### `host.py` : `file_hash` and `restart_on_change` -/

/-- `host.file_hash(path)`: the hex digest of the file's contents when the
path exists, `None` otherwise.  The filesystem snapshot is a map from path to
optional contents, and `digest` abstracts `hashlib.md5(...).hexdigest()`. -/
def file_hash (digest : String → String) (fs : String → Option String)
    (path : String) : Option String :=
  (fs path).map digest

/-- `list(OrderedDict.fromkeys(l))`: de-duplication keeping the first
occurrence of each element, in order. -/
def orderedKeys (seen : List String) : List String → List String
  | [] => []
  | x :: xs =>
      if seen.contains x then orderedKeys seen xs
      else x :: orderedKeys (x :: seen) xs

/-- The `restarts` list accumulated by `restart_on_change`'s wrapped
function: for each watched path (in the map's iteration order), if the hash
recorded before running the wrapped operation differs from the hash computed
after it, the path's mapped service names are appended. -/
def restartsOf (restart_map : List (String × List String))
    (digest : String → String) (fs_pre fs_post : String → Option String) :
    List String :=
  restart_map.foldl (fun restarts entry =>
    if file_hash digest fs_pre entry.1 ≠ file_hash digest fs_post entry.1 then
      restarts ++ entry.2
    else restarts) []

/-- `services_list = list(OrderedDict.fromkeys(restarts))`. -/
def services_list (restart_map : List (String × List String))
    (digest : String → String) (fs_pre fs_post : String → Option String) :
    List String :=
  orderedKeys [] (restartsOf restart_map digest fs_pre fs_post)

/-- The `service(action, name)` invocations issued by `restart_on_change`:
one `restart` per service, or a full `stop` pass followed by a full `start`
pass when `stopstart` is set. -/
def restart_on_change_actions (restart_map : List (String × List String))
    (digest : String → String) (fs_pre fs_post : String → Option String)
    (stopstart : Bool) : List (String × String) :=
  let sl := services_list restart_map digest fs_pre fs_post
  if !stopstart then sl.map (fun s => ("restart", s))
  else ["stop", "start"].flatMap (fun action => sl.map (fun s => (action, s)))

/-- Spec-side formulation of the restart set: union the services of every
changed path into a set, de-duplicated preserving first-seen order. -/
def specRestartSet (restart_map : List (String × List String))
    (digest : String → String) (fs_pre fs_post : String → Option String) :
    List String :=
  ((restart_map.filter (fun entry =>
      file_hash digest fs_pre entry.1 ≠ file_hash digest fs_post entry.1)).flatMap
    (fun entry => entry.2)).foldl
    (fun acc s => if acc.contains s then acc else acc ++ [s]) []

lemma foldl_append_eq_flatMap {α β : Type} (f : α → List β) (l : List α)
    (acc : List β) :
    l.foldl (fun r x => r ++ f x) acc = acc ++ l.flatMap f := by
  induction l generalizing acc with
  | nil => simp
  | cons x xs ih => simp [ih]

lemma foldl_ite_append_eq_flatMap {α β : Type} (p : α → Prop)
    [DecidablePred p] (f : α → List β) (l : List α) (acc : List β) :
    l.foldl (fun r x => if p x then r ++ f x else r) acc =
      acc ++ (l.filter (fun x => decide (p x))).flatMap f := by
  induction l generalizing acc with
  | nil => simp
  | cons x xs ih =>
      by_cases h : p x
      · simp [h, ih]
      · simp [h, ih]

lemma contains_iff_mem (l : List String) (x : String) :
    l.contains x = true ↔ x ∈ l :=
  List.elem_iff

lemma mem_orderedKeys (l : List String) (seen : List String) (s : String) :
    s ∈ orderedKeys seen l ↔ s ∈ l ∧ ¬ s ∈ seen := by
  induction l generalizing seen with
  | nil => simp [orderedKeys]
  | cons x xs ih =>
      rw [orderedKeys]
      by_cases hx : x ∈ seen
      · rw [if_pos (contains_iff_mem seen x |>.mpr hx), ih]
        constructor
        · rintro ⟨hmem, hs⟩
          exact ⟨List.mem_cons_of_mem _ hmem, hs⟩
        · rintro ⟨hmem, hs⟩
          rcases List.mem_cons.mp hmem with h | h
          · exact absurd (h ▸ hx) hs
          · exact ⟨h, hs⟩
      · rw [if_neg (fun hc => hx (contains_iff_mem seen x |>.mp hc))]
        simp only [List.mem_cons, ih, List.mem_cons]
        by_cases hsx : s = x
        · subst hsx
          simp [hx]
        · simp [hsx]

lemma orderedKeys_eq_foldl_dedup (l : List String) (seen : List String)
    (acc : List String)
    (hsa : ∀ x, x ∈ acc ↔ x ∈ seen) :
    l.foldl (fun acc s => if acc.contains s then acc else acc ++ [s]) acc =
      acc ++ orderedKeys seen l := by
  induction l generalizing seen acc with
  | nil => simp [orderedKeys]
  | cons x xs ih =>
      rw [List.foldl_cons, orderedKeys]
      by_cases hx : x ∈ seen
      · rw [if_pos (contains_iff_mem acc x |>.mpr ((hsa x).mpr hx)),
          if_pos (contains_iff_mem seen x |>.mpr hx)]
        exact ih seen acc hsa
      · have hax : ¬ x ∈ acc := fun h => hx ((hsa x).mp h)
        rw [if_neg (fun hc => hax (contains_iff_mem acc x |>.mp hc)),
          if_neg (fun hc => hx (contains_iff_mem seen x |>.mp hc))]
        rw [ih (x :: seen) (acc ++ [x]) ?_]
        · simp
        · intro y
          simp only [List.mem_append, List.mem_cons, List.mem_singleton,
            hsa y]
          tauto

/-! ### `contrib/docker/__init__.py` -/

/-- `DockerPortMappings.build_args`: starts from an empty list and, for each
`(src, dst)` pair yielded by `self.iteritems()`, extends it with
`['-p', '{src}:{dst}']`.  `items` is the dict's iteration sequence. -/
def DockerPortMappings.build_args (items : List (Nat × Nat)) : List String :=
  items.foldl (fun ports sd =>
    ports ++ ["-p", toString sd.1 ++ ":" ++ toString sd.2]) []

/-- Modelled from the runtime the source relies on: `DockerPortMappings`
subclasses Python 2's `dict`, whose `iteritems()` yields entries in
hash-table slot order, not insertion order.  With distinct integer keys below
8 and at most 5 entries, the table keeps its initial 8 slots, `hash(k) = k`
places key `k` in slot `k`, and iteration walks slots in ascending order —
so the items come out in ascending key order. -/
def pyDictItemsSmall (inserted : List (Nat × Nat)) : List (Nat × Nat) :=
  List.insertionSort (fun a b : Nat × Nat => a.1 ≤ b.1) inserted

/-- The fields of a constructed `DockerVolumes` object.  The two dict-valued
fields are kept as their iteration sequences. -/
structure DockerVolumes where
  volumes : List String
  named_volumes : List (String × String)
  mapped_volumes : List (String × String)
deriving DecidableEq, Repr

/-- `DockerVolumes.__init__(volumes, named_volumes, mapped_volumes)`:
`assert any([volumes, named_volumes, mapped_volumes])` fails when every
argument is absent (`None`) or empty (both are falsy); otherwise each field
is set to the given collection with `or`-defaulting to an empty one. -/
def DockerVolumes.init (volumes : Option (List String))
    (named_volumes : Option (List (String × String)))
    (mapped_volumes : Option (List (String × String))) :
    Except String DockerVolumes :=
  if (volumes.getD []).isEmpty ∧ (named_volumes.getD []).isEmpty ∧
      (mapped_volumes.getD []).isEmpty then
    Except.error
      "Must provide at least one of: volumes, named_volumes, mapped_volumes"
  else
    Except.ok
      { volumes := volumes.getD []
        named_volumes := named_volumes.getD []
        mapped_volumes := mapped_volumes.getD [] }

/-- `DockerVolumes.build_args`: one `['-v', volume]` per anonymous volume,
one `['-v', volume, '--name', name]` per named volume, and one
`['-v', host_path + ':' + volume]` per mapped volume, with a relative host
path first joined under `hookenv.charm_dir()` (the `host.mkdir` side effect
does not contribute argument tokens). -/
def DockerVolumes.build_args (charm_dir : String) (dv : DockerVolumes) :
    List String :=
  let args := dv.volumes.foldl (fun args volume => args ++ ["-v", volume]) []
  let args := dv.named_volumes.foldl (fun args nv =>
    args ++ ["-v", nv.2, "--name", nv.1]) args
  dv.mapped_volumes.foldl (fun args hv =>
    let host_path :=
      if hv.1.startsWith "/" then hv.1 else charm_dir ++ "/" ++ hv.1
    args ++ ["-v", host_path ++ ":" ++ hv.2]) args

/-- `DockerContainerArgs.__init__(*args, **kwargs)`: the positional tokens,
followed by `['--' + key.replace('_', '-'), value]` for each keyword item. -/
def DockerContainerArgs.init (args : List String)
    (kwargs : List (String × String)) : List String :=
  kwargs.foldl (fun acc kv => acc ++ ["--" ++ hyphenate kv.1, kv.2]) args

/-- `DockerRelation.map(relation_settings)` (default implementation): each
relation key becomes a `--key value` pair. -/
def DockerRelation.map (relation_settings : List (String × String)) :
    List String :=
  relation_settings.foldl (fun args kv =>
    args ++ ["--" ++ kv.1, kv.2]) []

/-- `DockerRelation.build_args`: concatenates `self.map(unit)` over the units
collected under `self[self.name]`, in collection order. -/
def DockerRelation.build_args (units : List (List (String × String))) :
    List String :=
  units.foldl (fun args unit => args ++ DockerRelation.map unit) []

/-- The `required_data` providers a `DockerCallback` can encounter.
`DockerRelation` inherits from both `RelationContext` and
`DockerContainerArgs`, so an `isinstance(provider, DockerContainerArgs)`
check also matches it. -/
inductive DockerProvider where
  | portMappings (items : List (Nat × Nat))
  | volumes (dv : DockerVolumes)
  | containerArgs (args : List String)
  | relation (units : List (List (String × String)))
deriving DecidableEq, Repr

namespace DockerProvider

/-- `isinstance(provider, DockerPortMappings)`. -/
def isPortMappings : DockerProvider → Bool
  | portMappings _ => true
  | _ => false

/-- `isinstance(provider, DockerVolumes)`. -/
def isVolumes : DockerProvider → Bool
  | volumes _ => true
  | _ => false

/-- `isinstance(provider, DockerContainerArgs)`: true for
`DockerContainerArgs` itself and for `DockerRelation` (multiple
inheritance). -/
def isContainerArgs : DockerProvider → Bool
  | containerArgs _ => true
  | relation _ => true
  | _ => false

/-- `provider.build_args()`, dispatched by the provider's class. -/
def build_args (charm_dir : String) : DockerProvider → List String
  | portMappings items => DockerPortMappings.build_args items
  | volumes dv => dv.build_args charm_dir
  | containerArgs args => args
  | relation units => DockerRelation.build_args units

end DockerProvider

/-- The externally observable steps `DockerCallback.__call__` performs:
`subprocess.check_call(argv)` and `os.remove(path)`. -/
inductive DockerStep where
  | check_call (argv : List String)
  | removeFile (path : String)
deriving DecidableEq, Repr

/-- Recognizes a `docker run` invocation among the callback's steps. -/
def isRunStep : DockerStep → Bool
  | DockerStep.check_call ("docker" :: "run" :: _) => true
  | _ => false

/-- `DockerCallback._get_args(manager, service_name, arg_type)`: walks the
service's `required_data` providers and concatenates `build_args()` of those
matching `isinstance(provider, arg_type)`. -/
def DockerCallback.get_args (charm_dir : String)
    (required_data : List DockerProvider)
    (arg_type : DockerProvider → Bool) : List String :=
  required_data.foldl (fun args provider =>
    if arg_type provider then args ++ provider.build_args charm_dir
    else args) []

/-- `DockerCallback.__call__(manager, service_name, event_name)`: when the
`CONTAINER_ID` file exists, its contents are read, `docker stop
<container_id>` is invoked and the file is removed; then, only when the
event is `start`, `docker run -d -cidfile <file>` is invoked with the volume
arguments, the port arguments, the service name (the image identifier) and
the container arguments, in that order.  `cid` holds the `CONTAINER_ID`
file's contents, `none` when the file does not exist. -/
def DockerCallback.call (charm_dir : String) (cid : Option String)
    (event_name : String) (service_name : String)
    (required_data : List DockerProvider) : List DockerStep :=
  let container_id_file := charm_dir ++ "/CONTAINER_ID"
  (match cid with
   | some container_id =>
      [DockerStep.check_call ["docker", "stop", container_id],
       DockerStep.removeFile container_id_file]
   | none => []) ++
  (if event_name = "start" then
    [DockerStep.check_call
      (["docker", "run", "-d", "-cidfile", container_id_file] ++
        DockerCallback.get_args charm_dir required_data
          DockerProvider.isVolumes ++
        DockerCallback.get_args charm_dir required_data
          DockerProvider.isPortMappings ++
        [service_name] ++
        DockerCallback.get_args charm_dir required_data
          DockerProvider.isContainerArgs)]
   else [])

/-! ## Claim theorems -/

lemma length_pair_flatMap {α : Type} (f g : α → String) (l : List α) :
    (l.flatMap (fun x => [f x, g x])).length = 2 * l.length := by
  induction l with
  | nil => rfl
  | cons x xs ih =>
      simp only [List.flatMap_cons, List.length_append, List.length_cons,
        List.length_nil, ih]
      omega

/-- C4: for every peer list and port, `cli_peers` yields exactly one
`--join host:port` pair per peer, in the peers' collection order, joined by
single spaces; the empty peer list yields the empty string, and the peers
`['10.0.0.10', '10.0.0.11']` with port 29015 yield
`'--join 10.0.0.10:29015 --join 10.0.0.11:29015'`. -/
theorem cli_peers_join_pairs :
    (∀ (peers : List String) (port : Nat),
      cli_peers peers port = specPeerJoin peers port) ∧
    cli_peers [] 29015 = "" ∧
    cli_peers ["10.0.0.10", "10.0.0.11"] 29015 =
      "--join 10.0.0.10:29015 --join 10.0.0.11:29015" := by
  refine ⟨fun peers port => ?_, by decide, by decide⟩
  unfold cli_peers specPeerJoin
  rw [foldl_append_eq_flatMap
    (fun peer => ["--join", peer ++ ":" ++ toString port]) peers []]
  simp only [List.nil_append]
  rw [intercalate_space_pairs peers (fun _ => "--join")
    (fun peer => peer ++ ":" ++ toString port)]
  have hs : ∀ peer : String,
      "--join" ++ " " ++ (peer ++ ":" ++ toString port) =
        "--join " ++ peer ++ ":" ++ toString port := by
    intro peer
    rw [show ("--join" : String) ++ " " = "--join " from rfl]
    simp [String.append_assoc]
  simp only [hs]

/-- C7 counterexample: inserting the pairs `(5, 1)` then `(2, 3)` into a
`DockerPortMappings` dict makes `iteritems()` yield them in hash-table order
`(2, 3), (5, 1)`, so `build_args` emits `['-p', '2:3', '-p', '5:1']` — not
the fragments in the caller-supplied order of the pairs. -/
theorem port_mapping_not_caller_order :
    DockerPortMappings.build_args (pyDictItemsSmall [(5, 1), (2, 3)]) =
        ["-p", "2:3", "-p", "5:1"] ∧
      DockerPortMappings.build_args [(5, 1), (2, 3)] =
        ["-p", "5:1", "-p", "2:3"] ∧
      DockerPortMappings.build_args (pyDictItemsSmall [(5, 1), (2, 3)]) ≠
        DockerPortMappings.build_args [(5, 1), (2, 3)] :=
  ⟨by decide, by decide, by decide⟩

/-- C7 amended: for every port mapping, `build_args` emits exactly one
`('-p', 'host:container')` fragment per `(host_port, container_port)` pair,
in the order the pairs are yielded by the dict's iteration (hash-table
order for a Python 2 dict, which need not be the caller-supplied order). -/
theorem port_mapping_one_fragment_per_pair :
    ∀ items : List (Nat × Nat),
      DockerPortMappings.build_args items =
        items.flatMap
          (fun sd => ["-p", toString sd.1 ++ ":" ++ toString sd.2]) ∧
      (DockerPortMappings.build_args items).length = 2 * items.length := by
  intro items
  have h := foldl_append_eq_flatMap
    (fun sd : Nat × Nat => ["-p", toString sd.1 ++ ":" ++ toString sd.2])
    items []
  simp only [List.nil_append] at h
  refine ⟨h, ?_⟩
  rw [DockerPortMappings.build_args, h]
  exact length_pair_flatMap _ _ items

/-- C9: constructing `DockerVolumes` with all three of `volumes`,
`named_volumes` and `mapped_volumes` absent or empty fails the assertion;
when at least one is non-empty, construction succeeds and the unsupplied
kinds default to empty collections. -/
theorem docker_volumes_init_assert :
    ∀ (v : Option (List String)) (n m : Option (List (String × String))),
      (DockerVolumes.init v n m =
          Except.error
            "Must provide at least one of: volumes, named_volumes, mapped_volumes"
        ↔ (v.getD [] = [] ∧ n.getD [] = [] ∧ m.getD [] = [])) ∧
      (¬ (v.getD [] = [] ∧ n.getD [] = [] ∧ m.getD [] = []) →
        DockerVolumes.init v n m =
          Except.ok
            { volumes := v.getD []
              named_volumes := n.getD []
              mapped_volumes := m.getD [] }) := by
  intro v n m
  by_cases h : (v.getD []).isEmpty ∧ (n.getD []).isEmpty ∧
      (m.getD []).isEmpty
  · have h' : v.getD [] = [] ∧ n.getD [] = [] ∧ m.getD [] = [] := by
      simpa [List.isEmpty_iff] using h
    simp [DockerVolumes.init, h, h']
  · have h' : ¬ (v.getD [] = [] ∧ n.getD [] = [] ∧ m.getD [] = []) := by
      simpa [List.isEmpty_iff] using h
    simp [DockerVolumes.init, h, h']

/-- C9 witness: all-absent construction fails; supplying only
`mapped_volumes` succeeds with the other kinds empty. -/
theorem docker_volumes_init_assert_witness :
    DockerVolumes.init none none none =
        Except.error
          "Must provide at least one of: volumes, named_volumes, mapped_volumes" ∧
      DockerVolumes.init none none (some [("data", "/rethinkdb")]) =
        Except.ok
          { volumes := []
            named_volumes := []
            mapped_volumes := [("data", "/rethinkdb")] } :=
  ⟨(docker_volumes_init_assert none none none).1.mpr (by decide),
   (docker_volumes_init_assert none none
      (some [("data", "/rethinkdb")])).2 (by decide)⟩

/-- C10: once a prior snapshot has been loaded, `Config.changed(key)` is
`False` for every key absent from both the current mapping and the prior
snapshot — both lookups produce the same missing-value default `None`. -/
theorem config_changed_false_when_absent :
    ∀ (current p : List (String × String)) (key : String),
      alookup current key = none → alookup p key = none →
      Config.changed current (some p) key = false := by
  intro current p key hc hp
  by_cases hemp : p.isEmpty <;>
    simp [Config.changed, Config.previousVal, hemp, hc, hp]

/-- C10 witness: a key absent from both the current mapping and the loaded
snapshot reports unchanged. -/
theorem config_changed_false_when_absent_witness :
    Config.changed [("a", "1")] (some [("b", "2")]) "c" = false :=
  config_changed_false_when_absent [("a", "1")] [("b", "2")] "c"
    (by decide) (by decide)

/-- C3: `save()` reinserts every key present in the prior snapshot but
absent from the current mapping (with the prior value) before serializing,
never clobbers a key present in the current mapping, and a save-then-load
round trip keeps every key of the prior snapshot present in the new prior
snapshot. -/
theorem config_save_preserves_prior_keys :
    ∀ (current prev : List (String × String)) (k : String),
      (amem current k = false →
        alookup (Config.save current (some prev)) k = alookup prev k) ∧
      (∀ v, alookup current k = some v →
        alookup (Config.save current (some prev)) k = some v) ∧
      ((alookup prev k).isSome →
        ∃ p2, Config.load_previous (Config.save current (some prev)) = some p2 ∧
          (alookup p2 k).isSome) := by
  intro current prev k
  have habsent : amem current k = false →
      alookup (Config.save current (some prev)) k = alookup prev k := by
    intro hc
    have hc' : alookup current k = none := by
      rcases h : alookup current k with _ | v
      · rfl
      · rw [amem, h] at hc
        cases hc
    by_cases hemp : prev.isEmpty
    · have : prev = [] := List.isEmpty_iff.mp hemp
      subst this
      simp only [Config.save, List.isEmpty_nil, if_true]
      rw [hc']
      rfl
    · simp only [Config.save, hemp, if_false, Bool.false_eq_true, reduceIte]
      rw [alookup_append, hc', Option.none_or]
      exact alookup_filter_not_mem current k hc' prev
  have hpresent : ∀ v, alookup current k = some v →
      alookup (Config.save current (some prev)) k = some v := by
    intro v hv
    by_cases hemp : prev.isEmpty
    · simp [Config.save, hemp, hv]
    · simp only [Config.save, hemp, if_false, Bool.false_eq_true, reduceIte]
      rw [alookup_append, hv]
      rfl
  refine ⟨habsent, hpresent, fun hsome => ?_⟩
  refine ⟨Config.save current (some prev), rfl, ?_⟩
  rcases hc : amem current k with _ | _
  · rw [habsent hc]
    exact hsome
  · rcases h : alookup current k with _ | v
    · rw [amem, h] at hc
      cases hc
    · rw [hpresent v h]
      rfl

/-- C3 witness: with current mapping `{a: 1}` and prior snapshot
`{a: 0, b: 2}`, the saved mapping keeps `b` from the prior snapshot, keeps
the current value of `a`, and the reloaded snapshot still has `b`. -/
theorem config_save_preserves_prior_keys_witness :
    alookup (Config.save [("a", "1")] (some [("a", "0"), ("b", "2")])) "b" =
        alookup [("a", "0"), ("b", "2")] "b" ∧
      alookup (Config.save [("a", "1")] (some [("a", "0"), ("b", "2")])) "a" =
        some "1" ∧
      ∃ p2, Config.load_previous
          (Config.save [("a", "1")] (some [("a", "0"), ("b", "2")])) =
            some p2 ∧ (alookup p2 "b").isSome :=
  ⟨(config_save_preserves_prior_keys [("a", "1")] [("a", "0"), ("b", "2")]
      "b").1 (by decide),
   (config_save_preserves_prior_keys [("a", "1")] [("a", "0"), ("b", "2")]
      "a").2.1 "1" (by decide),
   (config_save_preserves_prior_keys [("a", "1")] [("a", "0"), ("b", "2")]
      "b").2.2 (by decide)⟩

/-- C8: a function decorated via `Hooks.hook(names...)` is registered under
every explicit name, and — because the `for` loop's `else` clause always
runs — also under the function's own name, and additionally under the
hyphenated form of that name whenever it contains an underscore, even when
explicit names were supplied. -/
theorem hooks_hook_registers_all_names :
    ∀ (hooks : Hooks.Registry) (hook_names : List String)
      (decorated_name : String) (decorated : Nat),
      (∀ n ∈ hook_names,
        Hooks.hook hooks hook_names decorated_name decorated n =
          some decorated) ∧
      Hooks.hook hooks hook_names decorated_name decorated decorated_name =
        some decorated ∧
      (hasUnderscore decorated_name = true →
        Hooks.hook hooks hook_names decorated_name decorated
          (hyphenate decorated_name) = some decorated) := by
  intro hooks names fname f
  refine ⟨fun n hn => ?_, ?_, fun hu => ?_⟩
  · have h1 : (names.foldl (fun acc m => Hooks.register acc m f) hooks) n =
        some f := Hooks.foldl_register_mem names hooks n f hn
    have h2 := Hooks.register_keep _ fname n f h1
    unfold Hooks.hook
    by_cases hu : hasUnderscore fname
    · simp only [hu, if_true]
      exact Hooks.register_keep _ _ n f h2
    · simp only [hu, Bool.false_eq_true, reduceIte]
      exact h2
  · have h2 := Hooks.register_self
      (names.foldl (fun acc m => Hooks.register acc m f) hooks) fname f
    unfold Hooks.hook
    by_cases hu : hasUnderscore fname
    · simp only [hu, if_true]
      exact Hooks.register_keep _ _ fname f h2
    · simp only [hu, Bool.false_eq_true, reduceIte]
      exact h2
  · unfold Hooks.hook
    simp only [hu, if_true]
    exact Hooks.register_self _ _ f

/-- C8 witness: `hook(["config-changed"])` applied to a function named
`upgrade_charm` leaves it reachable under the explicit name, its own name
and the hyphenated form. -/
theorem hooks_hook_registers_all_names_witness :
    Hooks.hook (fun _ => none) ["config-changed"] "upgrade_charm" 7
        "config-changed" = some 7 ∧
      Hooks.hook (fun _ => none) ["config-changed"] "upgrade_charm" 7
        "upgrade_charm" = some 7 ∧
      Hooks.hook (fun _ => none) ["config-changed"] "upgrade_charm" 7
        "upgrade-charm" = some 7 := by
  have h := hooks_hook_registers_all_names (fun _ => none) ["config-changed"]
    "upgrade_charm" 7
  refine ⟨h.1 "config-changed" (by decide), h.2.1, ?_⟩
  have h3 := h.2.2 (by decide)
  rw [show hyphenate "upgrade_charm" = "upgrade-charm" from by decide] at h3
  exact h3

lemma unitReady_of_mem_get_data (name : String) (required_keys : List String)
    (env : RelationEnv) :
    ∀ u ∈ RelationContext.get_data name required_keys env,
      RelationContext.unitReady required_keys u = true := by
  intro u hu
  rw [RelationContext.get_data] at hu
  by_cases hids : (env.relationIds name).isEmpty
  · simp [hids] at hu
  · simp only [hids, Bool.false_eq_true, reduceIte] at hu
    rcases List.mem_flatMap.mp hu with ⟨rid, _, hmem⟩
    rcases List.mem_filterMap.mp hmem with ⟨unit, _, hsome⟩
    by_cases hr : RelationContext.unitReady required_keys
        (env.relationGet rid unit)
    · simp only [hr, if_true] at hsome
      cases hsome
      exact hr
    · simp only [hr, Bool.false_eq_true, reduceIte] at hsome
      cases hsome

/-- C1 counterexample: in an environment where the relation has two queried
units and only `unit/0` publishes the required `private-address` key, the
queried unit `unit/1` lacks a required key, yet `is_ready()` returns true —
incomplete units are merely excluded from collection. -/
theorem relation_ready_despite_incomplete_unit :
    ("unit/1" ∈ twoUnitEnv.relatedUnits "intracluster:1" ∧
      RelationContext.unitReady ["private-address"]
        (twoUnitEnv.relationGet "intracluster:1" "unit/1") = false) ∧
    RelationContext.is_ready "intracluster" ["private-address"] twoUnitEnv =
      true :=
  ⟨⟨by decide, by decide⟩, by decide⟩

/-- C1 amended: `is_ready()` returns true iff the collected unit list is
non-empty; `get_data` only collects units whose key sets are supersets of
the required-key set, so every collected unit is complete, but a queried
unit lacking a required key is only excluded from collection and does not
by itself make the provider unready. -/
theorem relation_is_ready_iff_collected_nonempty :
    ∀ (name : String) (required_keys : List String) (env : RelationEnv),
      RelationContext.is_ready name required_keys env = true ↔
        (RelationContext.get_data name required_keys env ≠ [] ∧
          ∀ u ∈ RelationContext.get_data name required_keys env,
            RelationContext.unitReady required_keys u = true) := by
  intro name required_keys env
  have hready : RelationContext.is_ready name required_keys env = true ↔
      RelationContext.get_data name required_keys env ≠ [] := by
    rw [RelationContext.is_ready, decide_eq_true_eq]
    exact List.length_pos
  constructor
  · intro h
    exact ⟨hready.mp h, unitReady_of_mem_get_data name required_keys env⟩
  · rintro ⟨hne, _⟩
    exact hready.mpr hne

/-- C1 amended witness: in the two-unit environment the collected list is
the single complete unit, and the provider reports ready. -/
theorem relation_is_ready_iff_collected_nonempty_witness :
    RelationContext.is_ready "intracluster" ["private-address"] twoUnitEnv =
      true :=
  (relation_is_ready_iff_collected_nonempty "intracluster"
    ["private-address"] twoUnitEnv).mpr ⟨by decide, by decide⟩

lemma foldl_bool_ite_append_eq_flatMap {α β : Type} (p : α → Bool)
    (f : α → List β) (l : List α) (acc : List β) :
    l.foldl (fun r x => if p x then r ++ f x else r) acc =
      acc ++ (l.filter p).flatMap f := by
  induction l generalizing acc with
  | nil => simp
  | cons x xs ih => cases h : p x <;> simp [h, ih]

lemma get_args_eq_filter_flatMap (charm_dir : String)
    (required_data : List DockerProvider)
    (arg_type : DockerProvider → Bool) :
    DockerCallback.get_args charm_dir required_data arg_type =
      (required_data.filter arg_type).flatMap
        (fun provider => provider.build_args charm_dir) := by
  rw [DockerCallback.get_args]
  simpa using foldl_bool_ite_append_eq_flatMap arg_type
    (fun provider => provider.build_args charm_dir) required_data []

/-- C2: whenever the `CONTAINER_ID` instance record exists, the callback
first issues `docker stop` for the recorded instance and deletes the record;
every `docker run` step comes strictly after those two steps, and a run step
is issued iff the event is `start`. -/
theorem docker_callback_stop_before_run :
    ∀ (charm_dir : String) (cid : Option String)
      (event_name service_name : String)
      (required_data : List DockerProvider) (container_id : String),
      cid = some container_id →
      ((DockerCallback.call charm_dir cid event_name service_name
          required_data).take 2 =
        [DockerStep.check_call ["docker", "stop", container_id],
         DockerStep.removeFile (charm_dir ++ "/CONTAINER_ID")]) ∧
      (∀ i step,
        (DockerCallback.call charm_dir cid event_name service_name
            required_data).get? i = some step →
        isRunStep step = true → 2 ≤ i) ∧
      ((∃ step ∈ DockerCallback.call charm_dir cid event_name service_name
          required_data, isRunStep step = true) ↔ event_name = "start") := by
  intro charm_dir cid event_name service_name required_data container_id hcid
  subst hcid
  rw [DockerCallback.call]
  simp only [List.cons_append, List.nil_append]
  refine ⟨rfl, ?_, ?_⟩
  · intro i step hget hrun
    match i with
    | 0 =>
        simp only [List.get?] at hget
        cases hget
        cases hrun
    | 1 =>
        simp only [List.get?] at hget
        cases hget
        cases hrun
    | Nat.succ (Nat.succ n) => omega
  · constructor
    · rintro ⟨step, hmem, hrun⟩
      by_cases hev : event_name = "start"
      · exact hev
      · simp only [hev, Bool.false_eq_true, reduceIte] at hmem
        simp only [List.mem_cons, List.not_mem_nil, or_false] at hmem
        rcases hmem with h | h
        · rw [h] at hrun
          cases hrun
        · rw [h] at hrun
          cases hrun
    · intro hev
      refine ⟨DockerStep.check_call
        (["docker", "run", "-d", "-cidfile", charm_dir ++ "/CONTAINER_ID"] ++
          DockerCallback.get_args charm_dir required_data
            DockerProvider.isVolumes ++
          DockerCallback.get_args charm_dir required_data
            DockerProvider.isPortMappings ++
          [service_name] ++
          DockerCallback.get_args charm_dir required_data
            DockerProvider.isContainerArgs), ?_, ?_⟩
      · simp [hev]
      · rfl

/-- C2 witness: with a recorded instance and a `start` event, the trace
starts with the stop and the record deletion, every run step is at index two
or later, and a run step is present. -/
theorem docker_callback_stop_before_run_witness :
    ((DockerCallback.call "/charm" (some "abc123") "start" "img" []).take 2 =
      [DockerStep.check_call ["docker", "stop", "abc123"],
       DockerStep.removeFile "/charm/CONTAINER_ID"]) ∧
    (∀ i step,
      (DockerCallback.call "/charm" (some "abc123") "start" "img" []).get? i =
        some step → isRunStep step = true → 2 ≤ i) ∧
    ((∃ step ∈ DockerCallback.call "/charm" (some "abc123") "start" "img" [],
      isRunStep step = true) ↔ ("start" : String) = "start") :=
  docker_callback_stop_before_run "/charm" (some "abc123") "start" "img" []
    "abc123" rfl

/-- C6: on the `start` event exactly one `docker run` is issued, and its
argument list is composed of the volume fragments, then the port fragments,
then the image identifier, then the container-args fragments, in that fixed
order (each fragment group concatenating `build_args()` of the providers of
the matching class, in provider order). -/
theorem docker_run_args_fixed_order :
    ∀ (charm_dir : String) (cid : Option String) (service_name : String)
      (required_data : List DockerProvider),
      (DockerCallback.call charm_dir cid "start" service_name
          required_data).filter isRunStep =
        [DockerStep.check_call
          (["docker", "run", "-d", "-cidfile",
              charm_dir ++ "/CONTAINER_ID"] ++
            (required_data.filter DockerProvider.isVolumes).flatMap
              (fun provider => provider.build_args charm_dir) ++
            (required_data.filter DockerProvider.isPortMappings).flatMap
              (fun provider => provider.build_args charm_dir) ++
            [service_name] ++
            (required_data.filter DockerProvider.isContainerArgs).flatMap
              (fun provider => provider.build_args charm_dir))] := by
  intro charm_dir cid service_name required_data
  cases cid with
  | none =>
      rw [DockerCallback.call]
      simp only [if_pos rfl, get_args_eq_filter_flatMap]
      rfl
  | some container_id =>
      rw [DockerCallback.call]
      simp only [if_pos rfl, get_args_eq_filter_flatMap]
      rfl

lemma restartsOf_eq_filter_flatMap (restart_map : List (String × List String))
    (digest : String → String) (fs_pre fs_post : String → Option String) :
    restartsOf restart_map digest fs_pre fs_post =
      (restart_map.filter (fun entry =>
          file_hash digest fs_pre entry.1 ≠
            file_hash digest fs_post entry.1)).flatMap
        (fun entry => entry.2) := by
  rw [restartsOf]
  simpa using foldl_ite_append_eq_flatMap
    (fun entry : String × List String =>
      file_hash digest fs_pre entry.1 ≠ file_hash digest fs_post entry.1)
    (fun entry => entry.2) restart_map []

lemma mem_services_list (restart_map : List (String × List String))
    (digest : String → String) (fs_pre fs_post : String → Option String)
    (s : String) :
    s ∈ services_list restart_map digest fs_pre fs_post ↔
      ∃ entry ∈ restart_map, s ∈ entry.2 ∧
        file_hash digest fs_pre entry.1 ≠ file_hash digest fs_post entry.1 := by
  rw [services_list, mem_orderedKeys, restartsOf_eq_filter_flatMap]
  simp only [List.not_mem_nil, not_false_iff, and_true, List.mem_flatMap,
    List.mem_filter, decide_not, Bool.not_eq_eq_eq_not, Bool.not_true,
    decide_eq_false_iff_not]
  constructor
  · rintro ⟨entry, ⟨hmem, hne⟩, hs⟩
    exact ⟨entry, hmem, hs, hne⟩
  · rintro ⟨entry, hmem, hs, hne⟩
    exact ⟨entry, ⟨hmem, hne⟩, hs⟩

/-- C5: the checksum guard restarts exactly the services mapped to watched
paths whose hash differs between the pre- and post-operation snapshots; the
restart list is the de-duplicated, first-seen-order union of the changed
paths' service lists (it equals the spec-side left-fold set union), every
issued service action targets a member of that list, and a service all of
whose mapped paths hash unchanged is never the target of an action. -/
theorem restart_on_change_restarts_changed_services :
    ∀ (restart_map : List (String × List String)) (digest : String → String)
      (fs_pre fs_post : String → Option String) (s : String),
      (s ∈ services_list restart_map digest fs_pre fs_post ↔
        ∃ entry ∈ restart_map, s ∈ entry.2 ∧
          file_hash digest fs_pre entry.1 ≠
            file_hash digest fs_post entry.1) ∧
      services_list restart_map digest fs_pre fs_post =
        specRestartSet restart_map digest fs_pre fs_post ∧
      (∀ (stopstart : Bool) (action : String × String),
        action ∈ restart_on_change_actions restart_map digest fs_pre fs_post
          stopstart →
        action.2 ∈ services_list restart_map digest fs_pre fs_post) ∧
      ((∀ entry ∈ restart_map, s ∈ entry.2 →
          file_hash digest fs_pre entry.1 = file_hash digest fs_post entry.1) →
        ∀ (stopstart : Bool) (action : String × String),
          action ∈ restart_on_change_actions restart_map digest fs_pre fs_post
            stopstart → action.2 ≠ s) := by
  intro restart_map digest fs_pre fs_post s
  have hmem := mem_services_list restart_map digest fs_pre fs_post s
  have hactions : ∀ (stopstart : Bool) (action : String × String),
      action ∈ restart_on_change_actions restart_map digest fs_pre fs_post
        stopstart →
      action.2 ∈ services_list restart_map digest fs_pre fs_post := by
    intro stopstart action haction
    rw [restart_on_change_actions] at haction
    cases stopstart with
    | false =>
        simp only [Bool.not_false, if_true] at haction
        rcases List.mem_map.mp haction with ⟨t, ht, heq⟩
        rw [← heq]
        exact ht
    | true =>
        simp only [Bool.not_true, Bool.false_eq_true, reduceIte] at haction
        rcases List.mem_flatMap.mp haction with ⟨a, _, hmem2⟩
        rcases List.mem_map.mp hmem2 with ⟨t, ht, heq⟩
        rw [← heq]
        exact ht
  refine ⟨hmem, ?_, hactions, ?_⟩
  · rw [specRestartSet, services_list, restartsOf_eq_filter_flatMap,
      orderedKeys_eq_foldl_dedup _ [] [] (fun x => Iff.rfl)]
    rfl
  · intro hunchanged stopstart action haction heq
    have h1 : action.2 ∈ services_list restart_map digest fs_pre fs_post :=
      hactions stopstart action haction
    rw [heq] at h1
    rcases hmem.mp h1 with ⟨entry, hentry, hs, hne⟩
    exact hne (hunchanged entry hentry hs)

/-- C5 witness: with one watched path mapped to `svc` whose hash changes,
`svc` is in the restart list; the restart list equals the spec-side union;
the single issued action targets it; and under unchanged hashes for every
entry no action could target it. -/
theorem restart_on_change_restarts_changed_services_witness :
    "svc" ∈ services_list [("ceph.conf", ["svc"])] (fun h => h)
        (fun _ => some "x") (fun _ => some "y") ∧
      services_list [("ceph.conf", ["svc"])] (fun h => h)
          (fun _ => some "x") (fun _ => some "y") =
        specRestartSet [("ceph.conf", ["svc"])] (fun h => h)
          (fun _ => some "x") (fun _ => some "y") :=
  ⟨(restart_on_change_restarts_changed_services [("ceph.conf", ["svc"])]
      (fun h => h) (fun _ => some "x") (fun _ => some "y") "svc").1.mpr
      ⟨("ceph.conf", ["svc"]), by decide, by decide, by decide⟩,
   (restart_on_change_restarts_changed_services [("ceph.conf", ["svc"])]
      (fun h => h) (fun _ => some "x") (fun _ => some "y") "svc").2.1⟩

end JujuDocker
